import Mathlib


/-!
Verification of `src/dataanalysis/brainmaptools.py`.

The file shallowly embeds the core routines of the repository:
matrix builders (`build_jaccard`, `build_n_coactives_array`), the
graph thresholders (`applycost_to_g`, `remove_edges_by_weight`), the
influence estimator (`build_influence_matrix`) and the significance
filter (`significant_connection_threshold`).  Python floats are
modelled exactly: graph weights and matrix ratios as rationals, and
the significance filter over an explicit float domain (`PyFloat`) with
nan and infinities, preserving numpy's silent division by zero (a
warning, not an exception) and the nan propagation through
`scipy.stats.binom.pmf` and `math.log10`.  An uncaught Python
`IndexError` or `ValueError` is modelled as a `none` result.
-/


/-! ## Definitions: shallow embedding of the source functions -/

/-- Python `int()` applied to a float/rational: truncation toward zero. -/
def pyInt (q : ℚ) : ℤ := if 0 ≤ q then ⌊q⌋ else ⌈q⌉

/-- Python list indexing `l[i]`: nonnegative indices count from the front,
negative indices from `-len` up count from the back, and anything else
raises `IndexError`, modelled as `none`. -/
def pyGet (l : List ℚ) (i : ℤ) : Option ℚ :=
  if 0 ≤ i then l.get? i.toNat
  else if -i ≤ (l.length : ℤ) then l.get? (l.length - (-i).toNat) else none

/-- Insert a weight into a descending-sorted list of weights. -/
def insertDesc (x : ℚ) : List ℚ → List ℚ
  | [] => [x]
  | y :: ys => if y < x then x :: y :: ys else y :: insertDesc x ys

/-- Embedding of Python `sorted(weights, reverse=1)`: descending insertion
sort of the weight list. -/
def sortDesc : List ℚ → List ℚ
  | [] => []
  | x :: xs => insertDesc x (sortDesc xs)

/-- A networkx-style weighted undirected graph: the node list and the list
of weighted edges, an edge being an (endpoint, endpoint) pair together
with its `weight` attribute. -/
structure WGraph where
  nodes : List ℕ
  edges : List ((ℕ × ℕ) × ℚ)
deriving DecidableEq

namespace WGraph

/-- `G.number_of_nodes()`. -/
def number_of_nodes (G : WGraph) : ℕ := G.nodes.length

/-- `[(G[x][y]['weight']) for x,y in G.edges_iter()]`. -/
def weightList (G : WGraph) : List ℚ := G.edges.map (fun e => e.2)

/-- networkx node degree: the number of incident edges, a self-loop
counting twice. -/
def degree (G : WGraph) (v : ℕ) : ℕ :=
  (G.edges.filter (fun e => decide (e.1.1 = v) || decide (e.1.2 = v))).length +
  (G.edges.filter (fun e => decide (e.1.1 = v) && decide (e.1.2 = v))).length

end WGraph

/-- `nx.complete_graph(n).number_of_edges()`, the all-pairs edge count
C(n,2). -/
def completeEdges (n : ℕ) : ℕ := n.choose 2

/-- Embedding of `applycost_to_g(G, cost)`.

`n_edges_keep = int(Complete_G.number_of_edges()*cost)`, the threshold is
`sorted_weights[n_edges_keep+1]` in the descending-sorted weight list, and
every edge of weight `< thresh` is removed from a copy of `G`.  The source
performs the list indexing unguarded, so an out-of-range position raises
an uncaught `IndexError`, modelled as a `none` result. -/
def applycost_to_g (G : WGraph) (cost : ℚ) : Option WGraph :=
  let n_edges_keep : ℤ := pyInt ((completeEdges G.number_of_nodes : ℚ) * cost)
  match pyGet (sortDesc G.weightList) (n_edges_keep + 1) with
  | none => none
  | some thresh => some ⟨G.nodes, G.edges.filter (fun e => !decide (e.2 < thresh))⟩

/-- Embedding of `remove_edges_by_weight(G, max_weight)`.

Edges of weight `< max_weight` are removed first; the node-pruning loop
then iterates `G.degree_iter()` — degrees in the ORIGINAL graph `G`, not
in the edge-pruned copy — and `remove_node` also deletes the surviving
edges incident to a removed node. -/
def remove_edges_by_weight (G : WGraph) (max_weight : ℚ) : WGraph :=
  let keptEdges := G.edges.filter (fun e => !decide (e.2 < max_weight))
  let keptNodes := G.nodes.filter (fun v => !decide (G.degree v < 2))
  ⟨keptNodes, keptEdges.filter
    (fun e => decide (e.1.1 ∈ keptNodes) && decide (e.1.2 ∈ keptNodes))⟩

def G6w : WGraph :=
  ⟨[0, 1, 2, 3],
   [((0,1),10), ((0,2),9), ((0,3),8), ((1,2),7), ((1,3),6), ((2,3),5)]⟩

def G7c : WGraph := ⟨[0, 1], [((0,1),2)]⟩

def G7w : WGraph := ⟨[0, 1, 2], [((0,1),4), ((0,2),7)]⟩

def G3c : WGraph := ⟨[0, 1, 2], [((0,1),5), ((1,2),3)]⟩

def G4c : WGraph := ⟨[0, 1, 2], [((0,1),1), ((1,2),1)]⟩

/-- Entry `(i, j)` of the matrix built by `build_jaccard(key_codes)`:
`intersect = float(len(set(x) & set(y)))`, `union = float(len(list(set(x) | set(y))))`,
and the entry is `intersect/union` when `union` is nonzero, else the
initial array value 0.  The float values are exact rationals here. -/
def build_jaccard (ks : List (List ℕ)) (i j : Fin ks.length) : ℚ :=
  let x := (ks.get i).toFinset
  let y := (ks.get j).toFinset
  let intersect : ℚ := ((x ∩ y).card : ℚ)
  let union : ℚ := ((x ∪ y).card : ℚ)
  if union ≠ 0 then intersect / union else 0

/-- Entry `(i, j)` of the matrix built by `build_n_coactives_array(key_codes)`:
`len(set(x) & set(y))` (stored in a float array whose values are the
integer counts). -/
def build_n_coactives_array (ks : List (List ℕ)) (i j : Fin ks.length) : ℕ :=
  ((ks.get i).toFinset ∩ (ks.get j).toFinset).card

def ks9 : List (List ℕ) := [[1, 2, 3], [2, 3, 4], []]

def ks10 : List (List ℕ) := [[1, 1, 2], [2, 3]]

/-- Guarded float division on exact rationals: numpy division by zero
produces a non-finite value (inf or nan) together with a runtime warning —
not an exception — modelled by the marker `none`. -/
def fdiv (x y : ℚ) : Option ℚ := if y = 0 then none else some (x / y)

/-- Float subtraction lifted to the non-finite marker: any non-finite
operand makes the difference non-finite. -/
def fsub : Option ℚ → Option ℚ → Option ℚ
  | some x, some y => some (x - y)
  | _, _ => none

/-- Embedding of `build_influence_matrix(n_coactives_array)`:
`a = n_coactive_mat/diagonal[:, np.newaxis]` divides every row `i` by
`diagonal[i]`, `b = n_coactive_mat/diagonal` divides every column `j` by
`diagonal[j]`, and `influence_mat = a - b`, so entry `(i, j)` is
`C[i][j]/C[i][i] - C[i][j]/C[j][j]`. -/
def build_influence_matrix {n : ℕ} (C : Fin n → Fin n → ℚ) :
    Fin n → Fin n → Option ℚ :=
  fun i j => fsub (fdiv (C i j) (C i i)) (fdiv (C i j) (C j j))

def C2x : Fin 2 → Fin 2 → ℚ :=
  fun i j =>
    if i.val = 0 then (if j.val = 0 then 2 else 1)
    else (if j.val = 0 then 1 else 4)

def C5x : Fin 1 → Fin 1 → ℚ := fun _ _ => 0

def C5w : Fin 2 → Fin 2 → ℚ :=
  fun i j => if i.val = 1 ∧ j.val = 1 then 3 else 0

/-- Model of a Python/numpy float value inside the significance filter: a
finite real, positive or negative infinity, or nan.  numpy produces
inf/nan from a float division by zero with only a `RuntimeWarning`, never
an exception; scipy and `math.log10` handle them as modelled below. -/
inductive PyFloat where
  | fin : ℝ → PyFloat
  | pinf : PyFloat
  | ninf : PyFloat
  | nan : PyFloat

open Classical in
/-- numpy float division: `x/0` yields nan for `x = 0` and a signed
infinity otherwise (warning only); finite divisions are exact.  Operands
arising in the filter are always finite or nan — any other operand maps
to nan, a case this pipeline never exercises. -/
noncomputable def divPy : PyFloat → PyFloat → PyFloat
  | PyFloat.fin x, PyFloat.fin y =>
      if y = 0 then
        (if x = 0 then PyFloat.nan
         else if 0 < x then PyFloat.pinf else PyFloat.ninf)
      else PyFloat.fin (x / y)
  | _, _ => PyFloat.nan

/-- Float multiplication on the values that occur here (finite or nan): a
nan operand gives nan, finite operands multiply exactly. -/
noncomputable def mulPy : PyFloat → PyFloat → PyFloat
  | PyFloat.fin x, PyFloat.fin y => PyFloat.fin (x * y)
  | _, _ => PyFloat.nan

open Classical in
/-- `scipy.stats.binom.pmf(k, n, p)` at integer `k`, `n` and a float `p`:
the argument check rejects `n < 0` and any `p` outside `[0, 1]` —
including nan and infinite `p` — with a nan result; a `k` outside the
support `[0, n]` gives 0; otherwise the pmf value
`C(n,k) * p^k * (1-p)^(n-k)`. -/
noncomputable def binomPmfPy (k n : ℤ) (p : PyFloat) : PyFloat :=
  match p with
  | PyFloat.fin pr =>
      if n < 0 ∨ pr < 0 ∨ 1 < pr then PyFloat.nan
      else if k < 0 ∨ n < k then PyFloat.fin 0
      else PyFloat.fin ((n.toNat.choose k.toNat : ℝ) * pr ^ k.toNat *
        (1 - pr) ^ (n.toNat - k.toNat))
  | _ => PyFloat.nan

open Classical in
/-- `math.log10` on a float: raises `ValueError` (modelled as `none`) on a
nonpositive finite argument and on -inf, maps +inf to +inf and nan to
nan. -/
noncomputable def log10Py : PyFloat → Option PyFloat
  | PyFloat.fin r => if r ≤ 0 then none else some (PyFloat.fin (Real.logb 10 r))
  | PyFloat.pinf => some PyFloat.pinf
  | PyFloat.ninf => none
  | PyFloat.nan => some PyFloat.nan

/-- Multiplication by the float constant `-2`. -/
noncomputable def negTwoPy : PyFloat → PyFloat
  | PyFloat.fin r => PyFloat.fin (-2 * r)
  | PyFloat.pinf => PyFloat.ninf
  | PyFloat.ninf => PyFloat.pinf
  | PyFloat.nan => PyFloat.nan

/-- IEEE comparison `v > α` against a finite threshold: nan compares
False, +inf True, -inf False. -/
def gtPy : PyFloat → ℝ → Prop
  | PyFloat.fin r, α => r > α
  | PyFloat.pinf, _ => True
  | PyFloat.ninf, _ => False
  | PyFloat.nan, _ => False

/-- The `null` likelihood computed at entry `(x, y)` of
`significant_connection_threshold`, with `a = thresh_array[x][x]`,
`b = thresh_array[y][y]`, `k = thresh_array[x][y]`, `N = total_contrasts`:
`p = a/N` and `null = binom.pmf(k, b, p) * binom.pmf(a-k, N-b, p)`,
in float semantics. -/
noncomputable def nullLikPy (a b k N : ℕ) : PyFloat :=
  mulPy
    (binomPmfPy (k : ℤ) (b : ℤ)
      (divPy (PyFloat.fin (a : ℝ)) (PyFloat.fin (N : ℝ))))
    (binomPmfPy ((a : ℤ) - (k : ℤ)) ((N : ℤ) - (b : ℤ))
      (divPy (PyFloat.fin (a : ℝ)) (PyFloat.fin (N : ℝ))))

/-- The `alternate` likelihood at entry `(x, y)`: `p_one = k/b`,
`p_zero = (a-k)/(N-b)` and
`alternate = binom.pmf(k, b, p_one) * binom.pmf(a-k, N-b, p_zero)`,
in float semantics (each 0/0 is nan). -/
noncomputable def altLikPy (a b k N : ℕ) : PyFloat :=
  mulPy
    (binomPmfPy (k : ℤ) (b : ℤ)
      (divPy (PyFloat.fin (k : ℝ)) (PyFloat.fin (b : ℝ))))
    (binomPmfPy ((a : ℤ) - (k : ℤ)) ((N : ℤ) - (b : ℤ))
      (divPy (PyFloat.fin ((a : ℝ) - (k : ℝ)))
        (PyFloat.fin ((N : ℝ) - (b : ℝ)))))

/-- `p_val = -2 * math.log10(null/alternate)` in float semantics; `none`
is the uncaught `ValueError` raised by `math.log10` on a nonpositive
ratio. -/
noncomputable def pValPy (a b k N : ℕ) : Option PyFloat :=
  (log10Py (divPy (nullLikPy a b k N) (altLikPy a b k N))).map negTwoPy

/-- The zeroing decision at an off-diagonal entry: `p_val` was computed
without an exception and `p_val > threshold` holds as a float comparison
(a nan `p_val` therefore KEEPS the entry). -/
noncomputable def zeroDecision (a b k N : ℕ) (α : ℝ) : Prop :=
  ∃ v, pValPy a b k N = some v ∧ gtPy v α

open Classical in
/-- One iteration of the double loop of `significant_connection_threshold`:
at an off-diagonal pair `p = (x, y)` the entry `(x, y)` of the running
array is zeroed when `p_val > threshold`; a `ValueError` from
`math.log10` aborts the whole call (`none`); diagonal pairs do nothing. -/
noncomputable def sctStep {n : ℕ} (N : ℕ) (α : ℝ) (M : Fin n → Fin n → ℕ)
    (p : Fin n × Fin n) : Option (Fin n → Fin n → ℕ) :=
  if p.1 = p.2 then some M
  else
    (pValPy (M p.1 p.1) (M p.2 p.2) (M p.1 p.2) N).map (fun v =>
      if gtPy v α then fun z w => if z = p.1 ∧ w = p.2 then 0 else M z w
      else M)

/-- The loop accumulator: once an exception has aborted the computation it
stays aborted. -/
noncomputable def sctFold {n : ℕ} (N : ℕ) (α : ℝ)
    (acc : Option (Fin n → Fin n → ℕ)) (p : Fin n × Fin n) :
    Option (Fin n → Fin n → ℕ) :=
  acc.bind (fun M => sctStep N α M p)

/-- Embedding of `significant_connection_threshold(in_array,
total_contrasts, threshold)`: the row-major double loop over all index
pairs, threading the mutated copy `thresh_array` through every iteration
exactly as the source mutates it in place.  The input co-activation
matrix has integer entries and the only written value is 0, so the array
stays integer-valued; a `none` result is an uncaught `ValueError`
escaping the call. -/
noncomputable def significant_connection_threshold {n : ℕ}
    (C : Fin n → Fin n → ℕ) (N : ℕ) (α : ℝ) :
    Option (Fin n → Fin n → ℕ) :=
  ((List.finRange n) ×ˢ (List.finRange n)).foldl (sctFold N α) (some C)

/-- The real number `C(n,k) * p^k * (1-p)^(n-k)`: the value that
`scipy.stats.binom.pmf(k, n, p)` takes on in-range arguments (`k ≤ n`,
`0 ≤ p ≤ 1`).  Used only to state what the float pipeline computes when
no degeneracy occurs; the program semantics itself is `binomPmfPy`. -/
noncomputable def binomPmfVal (k n : ℕ) (p : ℝ) : ℝ :=
  (n.choose k : ℝ) * p ^ k * (1 - p) ^ (n - k)

/-- The real value of the `null` likelihood in the non-degenerate regime
(`N > 0`; see `nullLikPy_fin`). -/
noncomputable def nullLikVal (a b k N : ℕ) : ℝ :=
  binomPmfVal k b ((a : ℝ) / (N : ℝ)) *
  binomPmfVal (a - k) (N - b) ((a : ℝ) / (N : ℝ))

/-- The real value of the `alternate` likelihood in the non-degenerate
regime (`0 < b < N`; see `altLikPy_fin`). -/
noncomputable def altLikVal (a b k N : ℕ) : ℝ :=
  binomPmfVal k b ((k : ℝ) / (b : ℝ)) *
  binomPmfVal (a - k) (N - b) (((a : ℝ) - (k : ℝ)) / ((N : ℝ) - (b : ℝ)))

/-- The real value of `p_val` in the non-degenerate regime. -/
noncomputable def pValVal (a b k N : ℕ) : ℝ :=
  -2 * Real.logb 10 (nullLikVal a b k N / altLikVal a b k N)

noncomputable def ratioForm (k c d e : ℕ) : ℝ :=
  (((k : ℝ) + c) ^ (k + c) * ((d : ℝ) + e) ^ (d + e) *
    ((k : ℝ) + d) ^ (k + d) * ((c : ℝ) + e) ^ (c + e)) /
  (((k : ℝ) + c + d + e) ^ (k + c + d + e) *
    (k : ℝ) ^ k * (c : ℝ) ^ c * (d : ℝ) ^ d * (e : ℝ) ^ e)

def C1w : Fin 2 → Fin 2 → ℕ :=
  fun i j =>
    if i.val = 0 then (if j.val = 0 then 3 else 1)
    else (if j.val = 0 then 1 else 5)

/-- The co-activation matrix `[[1,1],[1,2]]`, realised by the keycode sets
`A0 = {u}`, `A1 = {u, v}` (so it satisfies every data-model invariant for
a universe of 2 contrasts, and also for 3). -/
def Cnan : Fin 2 → Fin 2 → ℕ :=
  fun i j => if i.val = 1 ∧ j.val = 1 then 2 else 1

/-! ## Theorems -/

lemma length_insertDesc (x : ℚ) (l : List ℚ) :
    (insertDesc x l).length = l.length + 1 := by
  induction l with
  | nil => rfl
  | cons y ys ih =>
      by_cases h : y < x
      · simp [insertDesc, h]
      · simp [insertDesc, h, ih]

lemma length_sortDesc (l : List ℚ) : (sortDesc l).length = l.length := by
  induction l with
  | nil => rfl
  | cons x xs ih => simp [sortDesc, length_insertDesc, ih]

lemma pyGet_none_of_le (l : List ℚ) (i : ℤ) (h0 : 0 ≤ i)
    (h : (l.length : ℤ) ≤ i) : pyGet l i = none := by
  unfold pyGet
  rw [if_pos h0]
  rw [List.get?_eq_none]
  omega

lemma pyInt_ofNat (m : ℕ) : pyInt (m : ℚ) = m := by
  unfold pyInt
  rw [if_pos (Nat.cast_nonneg m), Int.floor_natCast]

lemma pyInt_zero : pyInt 0 = 0 := by
  simpa using pyInt_ofNat 0

lemma pyInt_nonneg (q : ℚ) (h : 0 ≤ q) : 0 ≤ pyInt q := by
  unfold pyInt
  rw [if_pos h]
  exact Int.floor_nonneg.mpr h

lemma applycost_eq_none (G : WGraph) (cost : ℚ) (h0 : 0 ≤ cost)
    (hk : (G.edges.length : ℤ) ≤ pyInt ((completeEdges G.number_of_nodes : ℚ) * cost)) :
    applycost_to_g G cost = none := by
  have hnn : (0:ℤ) ≤ pyInt ((completeEdges G.number_of_nodes : ℚ) * cost) :=
    pyInt_nonneg _ (mul_nonneg (Nat.cast_nonneg _) h0)
  have hw : G.weightList.length = G.edges.length := by
    simp [WGraph.weightList]
  have hlen : ((sortDesc G.weightList).length : ℤ) ≤
      pyInt ((completeEdges G.number_of_nodes : ℚ) * cost) + 1 := by
    rw [length_sortDesc, hw]
    omega
  simp only [applycost_to_g]
  rw [pyGet_none_of_le _ _ (by omega) hlen]

lemma applycost_eq_some (G : WGraph) (cost : ℚ) (t : ℚ)
    (ht : pyGet (sortDesc G.weightList)
      (pyInt ((completeEdges G.number_of_nodes : ℚ) * cost) + 1) = some t) :
    applycost_to_g G cost =
      some ⟨G.nodes, G.edges.filter (fun e => !decide (e.2 < t))⟩ := by
  simp only [applycost_to_g]
  rw [ht]

/-- Claim C6: for every weighted graph and cost in `[0,1]` whose selection
index is in bounds, `applycost_to_g` computes
`n_edges_keep = floor(cost * C(N,2))`, thresholds at the element in
position `n_edges_keep+1` of the descending-sorted weight list, removes
exactly the edges of weight strictly below that threshold, and leaves the
surviving edges (and their weights) untouched. -/
theorem applycost_characterization (G : WGraph) (cost : ℚ) (t : ℚ)
    (e : (ℕ × ℕ) × ℚ) (h0 : 0 ≤ cost) (h1 : cost ≤ 1)
    (ht : pyGet (sortDesc G.weightList)
      (pyInt ((completeEdges G.number_of_nodes : ℚ) * cost) + 1) = some t) :
    pyInt ((completeEdges G.number_of_nodes : ℚ) * cost)
        = ⌊cost * (completeEdges G.number_of_nodes : ℚ)⌋ ∧
    applycost_to_g G cost
        = some ⟨G.nodes, G.edges.filter (fun x => !decide (x.2 < t))⟩ ∧
    (e ∈ G.edges.filter (fun x => !decide (x.2 < t)) ↔
      e ∈ G.edges ∧ ¬(e.2 < t)) := by
  refine ⟨?_, applycost_eq_some G cost t ht, ?_⟩
  · unfold pyInt
    rw [if_pos (mul_nonneg (Nat.cast_nonneg _) h0), mul_comm]
  · simp [List.mem_filter]

/-- Witness for claim C6: the complete 4-node graph with weights 10..5 at
cost 1/2 keeps the top weights down to the threshold 6. -/
theorem applycost_characterization_witness :
    pyInt ((completeEdges G6w.number_of_nodes : ℚ) * (1/2))
        = ⌊(1/2 : ℚ) * (completeEdges G6w.number_of_nodes : ℚ)⌋ ∧
    applycost_to_g G6w (1/2)
        = some ⟨G6w.nodes, G6w.edges.filter (fun x => !decide (x.2 < 6))⟩ ∧
    (((2,3),(5:ℚ)) ∈ G6w.edges.filter (fun x => !decide (x.2 < 6)) ↔
      ((2,3),(5:ℚ)) ∈ G6w.edges ∧ ¬((5:ℚ) < 6)) :=
  applycost_characterization G6w (1/2) 6 ((2,3),(5:ℚ))
    (by norm_num) (by norm_num)
    (by
      rw [show ((completeEdges G6w.number_of_nodes : ℚ) * (1/2)) = ((3:ℕ):ℚ) by
        norm_num [completeEdges, WGraph.number_of_nodes, G6w,
          show Nat.choose 4 2 = 6 from rfl], pyInt_ofNat]
      decide)

/-- Counterexample to claim C7 as stated: on a two-node graph with one edge
and cost 1 the requested keep-count (1) equals the number of available
weights, and `applycost_to_g` raises `IndexError` (result `none`) instead
of returning the graph with every edge kept. -/
theorem c7_counterexample : applycost_to_g G7c 1 = none := by
  apply applycost_eq_none G7c 1 (by norm_num)
  rw [mul_one, pyInt_ofNat]
  decide

/-- Claim C7 amended: when the requested edge-keep count meets or exceeds
the number of available edge weights, `applycost_to_g` is NOT recovered
locally: the unguarded `sorted_weights[n_edges_keep+1]` raises an uncaught
`IndexError`, modelled as a `none` result. -/
theorem applycost_keepcount_overflow (G : WGraph) (cost : ℚ) (h0 : 0 ≤ cost)
    (hk : (G.edges.length : ℤ) ≤
      pyInt ((completeEdges G.number_of_nodes : ℚ) * cost)) :
    applycost_to_g G cost = none :=
  applycost_eq_none G cost h0 hk

/-- Witness for the amended claim C7. -/
theorem applycost_keepcount_overflow_witness : applycost_to_g G7w 1 = none :=
  applycost_keepcount_overflow G7w 1 (by norm_num)
    (by rw [mul_one, pyInt_ofNat]; decide)

lemma G3c_cost_zero :
    applycost_to_g G3c 0 =
      some ⟨G3c.nodes, G3c.edges.filter (fun e => !decide (e.2 < 3))⟩ := by
  apply applycost_eq_some G3c 0 3
  rw [mul_zero, pyInt_zero]
  decide

/-- Counterexample to claim C3 as stated: on a three-node path with edge
weights 5 and 3, `applycost_to_g` at cost 1.0 raises `IndexError` (`none`,
not a graph with the same edge set), and at cost 0.0 returns a graph that
still has both edges rather than zero edges. -/
theorem c3_counterexample :
    applycost_to_g G3c 1 = none ∧
    applycost_to_g G3c 0 = some ⟨[0, 1, 2], [((0,1),5), ((1,2),3)]⟩ := by
  constructor
  · apply applycost_eq_none G3c 1 (by norm_num)
    rw [mul_one, pyInt_ofNat]
    decide
  · rw [G3c_cost_zero]
    decide

/-- Claim C3 amended: `applycost_to_g G 1.0` always raises `IndexError`
(the selection index `C(N,2)+1` exceeds the edge count, since a graph has
at most `C(N,2)` edges), and `applycost_to_g G 0.0` does not empty the
graph: it thresholds at the second-largest weight (position 1 of the
descending-sorted weight list), keeping every edge at least that heavy,
and raises `IndexError` when fewer than two edges exist. -/
theorem applycost_extreme_costs (G : WGraph) (t : ℚ)
    (hE : G.edges.length ≤ completeEdges G.number_of_nodes)
    (ht : pyGet (sortDesc G.weightList) 1 = some t) :
    applycost_to_g G 1 = none ∧
    applycost_to_g G 0 =
      some ⟨G.nodes, G.edges.filter (fun e => !decide (e.2 < t))⟩ := by
  constructor
  · apply applycost_eq_none G 1 (by norm_num)
    rw [mul_one, pyInt_ofNat]
    exact_mod_cast hE
  · apply applycost_eq_some G 0 t
    rw [mul_zero, pyInt_zero]
    exact ht

/-- Witness for the amended claim C3. -/
theorem applycost_extreme_costs_witness :
    applycost_to_g G3c 1 = none ∧
    applycost_to_g G3c 0 =
      some ⟨G3c.nodes, G3c.edges.filter (fun e => !decide (e.2 < 3))⟩ :=
  applycost_extreme_costs G3c 3 (by decide) (by decide)

/-- Counterexample to claim C4 as stated: pruning the three-node path with
unit weights at `min_weight = 5` removes both edges, so every node has
degree 0 in the edge-pruned graph and the claim demands an empty node set;
the source instead keeps node 1, whose degree in the ORIGINAL graph was 2. -/
theorem c4_counterexample :
    remove_edges_by_weight G4c 5 = ⟨[1], []⟩ ∧
    WGraph.degree ⟨G4c.nodes, G4c.edges.filter (fun e => !decide (e.2 < 5))⟩ 1 = 0 := by
  decide

/-- Claim C4 amended: `remove_edges_by_weight` removes every edge of weight
strictly below `min_weight`, and then removes every node whose degree in
the ORIGINAL graph `G` (not the edge-pruned one) is below 2, node removal
also dropping surviving edges incident to removed nodes; every node of
original degree at least 2 remains. -/
theorem remove_edges_by_weight_characterization (G : WGraph) (w : ℚ) (v : ℕ)
    (e : (ℕ × ℕ) × ℚ) :
    (v ∈ (remove_edges_by_weight G w).nodes ↔ v ∈ G.nodes ∧ 2 ≤ G.degree v) ∧
    (e ∈ (remove_edges_by_weight G w).edges ↔
      e ∈ G.edges ∧ ¬(e.2 < w) ∧
      (e.1.1 ∈ G.nodes ∧ 2 ≤ G.degree e.1.1) ∧
      (e.1.2 ∈ G.nodes ∧ 2 ≤ G.degree e.1.2)) := by
  simp only [remove_edges_by_weight]
  constructor
  · simp [List.mem_filter, not_lt]
  · simp only [List.mem_filter, Bool.and_eq_true, Bool.not_eq_true',
      decide_eq_true_eq, decide_eq_false_iff_not, not_lt]
    tauto

/-- Claim C9: every `build_jaccard` entry lies in `[0,1]`; the diagonal
entry equals 1 whenever the region's keycode set is non-empty and equals 0
when it is empty (the empty union yields 0 by the `if union:` guard, not
an error). -/
theorem build_jaccard_range_and_diag (ks : List (List ℕ))
    (i j : Fin ks.length) :
    (0 ≤ build_jaccard ks i j ∧ build_jaccard ks i j ≤ 1) ∧
    ((ks.get i).toFinset ≠ ∅ → build_jaccard ks i i = 1) ∧
    ((ks.get i).toFinset = ∅ → build_jaccard ks i i = 0) := by
  simp only [build_jaccard]
  refine ⟨⟨?_, ?_⟩, ?_, ?_⟩
  · split
    · positivity
    · exact le_refl 0
  · split
    · rename_i h
      have hpos : (0:ℚ) <
          (((ks.get i).toFinset ∪ (ks.get j).toFinset).card : ℚ) :=
        lt_of_le_of_ne (by positivity) (Ne.symm h)
      rw [div_le_one hpos]
      exact_mod_cast Finset.card_le_card Finset.inter_subset_union
    · exact zero_le_one
  · intro hne
    rw [Finset.inter_self, Finset.union_self]
    have hpos : 0 < (ks.get i).toFinset.card :=
      Finset.card_pos.mpr (Finset.nonempty_iff_ne_empty.mpr hne)
    rw [if_pos (by exact_mod_cast hpos.ne')]
    exact div_self (by exact_mod_cast hpos.ne')
  · intro he
    rw [Finset.inter_self, Finset.union_self, he]
    simp

/-- Witness for claim C9 on the three-region example with one empty region. -/
theorem build_jaccard_range_and_diag_witness :
    ((0 ≤ build_jaccard ks9 ⟨0, by decide⟩ ⟨1, by decide⟩ ∧
      build_jaccard ks9 ⟨0, by decide⟩ ⟨1, by decide⟩ ≤ 1) ∧
    ((ks9.get ⟨0, by decide⟩).toFinset ≠ ∅ →
      build_jaccard ks9 ⟨0, by decide⟩ ⟨0, by decide⟩ = 1) ∧
    ((ks9.get ⟨0, by decide⟩).toFinset = ∅ →
      build_jaccard ks9 ⟨0, by decide⟩ ⟨0, by decide⟩ = 0)) ∧
    ((0 ≤ build_jaccard ks9 ⟨2, by decide⟩ ⟨2, by decide⟩ ∧
      build_jaccard ks9 ⟨2, by decide⟩ ⟨2, by decide⟩ ≤ 1) ∧
    ((ks9.get ⟨2, by decide⟩).toFinset ≠ ∅ →
      build_jaccard ks9 ⟨2, by decide⟩ ⟨2, by decide⟩ = 1) ∧
    ((ks9.get ⟨2, by decide⟩).toFinset = ∅ →
      build_jaccard ks9 ⟨2, by decide⟩ ⟨2, by decide⟩ = 0)) :=
  ⟨build_jaccard_range_and_diag ks9 ⟨0, by decide⟩ ⟨1, by decide⟩,
   build_jaccard_range_and_diag ks9 ⟨2, by decide⟩ ⟨2, by decide⟩⟩

lemma toFinset_get_set (ks : List (List ℕ)) (i j : ℕ) (hi : i < ks.length)
    (hj : j < ks.length)
    (hl : j < (ks.set i ((ks.get ⟨i, hi⟩).dedup)).length) :
    ((ks.set i ((ks.get ⟨i, hi⟩).dedup)).get ⟨j, hl⟩).toFinset
      = (ks.get ⟨j, hj⟩).toFinset := by
  simp only [List.get_eq_getElem]
  by_cases h : i = j
  · subst h
    rw [List.getElem_set_self]
    ext a
    simp [List.mem_dedup]
  · rw [List.getElem_set_ne h]

/-- Claim C10 (implicit): `build_n_coactives_array` and `build_jaccard` see
each region's keycode list only through `set(...)`, so replacing any
region's list by its deduplicated version leaves both output matrices
unchanged; in particular the co-activation diagonal entry counts the
DISTINCT identifiers of a region, not its list length. -/
theorem build_dedup_insensitive (ks : List (List ℕ)) (i j k : ℕ)
    (hi : i < ks.length) (hj : j < ks.length) (hk : k < ks.length) :
    build_n_coactives_array (ks.set i ((ks.get ⟨i, hi⟩).dedup))
        ⟨j, by simpa using hj⟩ ⟨k, by simpa using hk⟩
      = build_n_coactives_array ks ⟨j, hj⟩ ⟨k, hk⟩ ∧
    build_jaccard (ks.set i ((ks.get ⟨i, hi⟩).dedup))
        ⟨j, by simpa using hj⟩ ⟨k, by simpa using hk⟩
      = build_jaccard ks ⟨j, hj⟩ ⟨k, hk⟩ ∧
    build_n_coactives_array ks ⟨i, hi⟩ ⟨i, hi⟩ = (ks.get ⟨i, hi⟩).dedup.length := by
  refine ⟨?_, ?_, ?_⟩
  · unfold build_n_coactives_array
    rw [toFinset_get_set ks i j hi hj, toFinset_get_set ks i k hi hk]
  · simp only [build_jaccard]
    rw [toFinset_get_set ks i j hi hj, toFinset_get_set ks i k hi hk]
  · unfold build_n_coactives_array
    rw [Finset.inter_self, List.card_toFinset]

/-- Witness for claim C10: deduplicating region 0's list `[1,1,2]` changes
neither matrix, and the diagonal count is the number of distinct ids. -/
theorem build_dedup_insensitive_witness :
    build_n_coactives_array (ks10.set 0 ((ks10.get ⟨0, by decide⟩).dedup))
        ⟨0, by decide⟩ ⟨1, by decide⟩
      = build_n_coactives_array ks10 ⟨0, by decide⟩ ⟨1, by decide⟩ ∧
    build_jaccard (ks10.set 0 ((ks10.get ⟨0, by decide⟩).dedup))
        ⟨0, by decide⟩ ⟨1, by decide⟩
      = build_jaccard ks10 ⟨0, by decide⟩ ⟨1, by decide⟩ ∧
    build_n_coactives_array ks10 ⟨0, by decide⟩ ⟨0, by decide⟩
      = (ks10.get ⟨0, by decide⟩).dedup.length :=
  build_dedup_insensitive ks10 0 0 1 (by decide) (by decide) (by decide)

/-- Counterexample to claim C2 as stated: on the co-activation matrix
`[[2,1],[1,4]]` the source computes entry `(0,1)` as
`C[0][1]/C[0][0] - C[0][1]/C[1][1] = 1/2 - 1/4 = 1/4`, not the claimed
`C[0][1]/C[1][1] - C[0][1]/C[0][0] = -1/4`: the claim's two normalization
terms are swapped. -/
theorem c2_counterexample :
    build_influence_matrix C2x 0 1 ≠
      some (C2x 0 1 / C2x 1 1 - C2x 0 1 / C2x 0 0) := by
  simp only [build_influence_matrix, fdiv, fsub, C2x]
  norm_num

/-- Claim C2 amended: for a co-activation matrix with nonzero diagonal,
`build_influence_matrix` returns the finite matrix with
`I[i][j] = C[i][j]/C[i][i] - C[i][j]/C[j][j]` (co-activation normalized by
the ROW region's own count minus by the COLUMN region's own count), so a
positive entry means the row region's activations involve the column
region proportionally more than conversely. -/
theorem build_influence_matrix_formula {n : ℕ} (C : Fin n → Fin n → ℚ)
    (h : ∀ i, C i i ≠ 0) (i j : Fin n) :
    build_influence_matrix C i j = some (C i j / C i i - C i j / C j j) := by
  simp only [build_influence_matrix, fdiv, if_neg (h i), if_neg (h j), fsub]

/-- Witness for the amended claim C2. -/
theorem build_influence_matrix_formula_witness :
    build_influence_matrix C2x 0 1 =
      some (C2x 0 1 / C2x 0 0 - C2x 0 1 / C2x 1 1) :=
  build_influence_matrix_formula C2x (by decide) 0 1

/-- Counterexample to claim C5 as stated: a region with zero independent
activations (zero diagonal) does NOT raise any error — no
`DegenerateStatistics` kind exists anywhere in the source — instead
`build_influence_matrix` returns normally and the affected entry is the
non-finite result of a division by zero (numpy nan). -/
theorem c5_counterexample : build_influence_matrix C5x 0 0 = none := by
  simp only [build_influence_matrix, fdiv, C5x, if_pos rfl]
  rfl

/-- Claim C5 amended: for any co-activation matrix with a zero diagonal
entry, `build_influence_matrix` returns a matrix (raising nothing) whose
corresponding diagonal entry is non-finite (`0/0`, numpy nan — division by
zero only warns), rather than raising a `DegenerateStatistics` error,
which the code never defines. -/
theorem build_influence_matrix_zero_diag {n : ℕ} (C : Fin n → Fin n → ℚ)
    (i : Fin n) (h : C i i = 0) : build_influence_matrix C i i = none := by
  simp only [build_influence_matrix, fdiv, h, if_pos rfl]
  rfl

/-- Witness for the amended claim C5. -/
theorem build_influence_matrix_zero_diag_witness :
    build_influence_matrix C5w 0 0 = none :=
  build_influence_matrix_zero_diag C5w 0 (by decide)

lemma nullLikVal_eq (k c d e : ℕ) :
    nullLikVal (k + c) (k + d) k (k + c + d + e) =
      ((k + d).choose k : ℝ) * ((c + e).choose c : ℝ) *
        (((k : ℝ) + c) / ((k : ℝ) + c + d + e)) ^ (k + c) *
        (1 - ((k : ℝ) + c) / ((k : ℝ) + c + d + e)) ^ (d + e) := by
  unfold nullLikVal binomPmfVal
  rw [show (k + c) - k = c from by omega]
  rw [show (k + c + d + e) - (k + d) = c + e from by omega]
  rw [show (k + d) - k = d from by omega, show (c + e) - c = e from by omega]
  rw [show ((k + c : ℕ) : ℝ) = (k : ℝ) + c by push_cast; ring]
  rw [show ((k + c + d + e : ℕ) : ℝ) = (k : ℝ) + c + d + e by push_cast; ring]
  ring

lemma altLikVal_eq (k c d e : ℕ) :
    altLikVal (k + c) (k + d) k (k + c + d + e) =
      ((k + d).choose k : ℝ) * ((c + e).choose c : ℝ) *
        ((k : ℝ) / ((k : ℝ) + d)) ^ k * (1 - (k : ℝ) / ((k : ℝ) + d)) ^ d *
        ((c : ℝ) / ((c : ℝ) + e)) ^ c * (1 - (c : ℝ) / ((c : ℝ) + e)) ^ e := by
  unfold altLikVal binomPmfVal
  rw [show (k + c) - k = c from by omega]
  rw [show (k + c + d + e) - (k + d) = c + e from by omega]
  rw [show (k + d) - k = d from by omega, show (c + e) - c = e from by omega]
  rw [show ((k + d : ℕ) : ℝ) = (k : ℝ) + d by push_cast; ring]
  rw [show ((k + c : ℕ) : ℝ) - (k : ℝ) = (c : ℝ) by push_cast; ring]
  rw [show ((k + c + d + e : ℕ) : ℝ) - ((k : ℝ) + d) = (c : ℝ) + e by
    push_cast; ring]
  ring

lemma pow_ne_of (x : ℝ) (m : ℕ) (h : m ≠ 0 → x ≠ 0) : x ^ m ≠ 0 := by
  rcases Nat.eq_zero_or_pos m with hm | hm
  · subst hm; simp
  · exact pow_ne_zero _ (h hm.ne')

lemma castAdd_pos (a b : ℕ) (h : a + b ≠ 0) : (0:ℝ) < (a : ℝ) + b := by
  have : 0 < a + b := Nat.pos_of_ne_zero h
  exact_mod_cast this

lemma selfPow_ne (m : ℕ) : ((m : ℝ)) ^ m ≠ 0 := by
  apply pow_ne_of
  intro hm
  exact_mod_cast hm

lemma castAddPow_ne (a b : ℕ) : ((a : ℝ) + b) ^ (a + b) ≠ 0 := by
  apply pow_ne_of
  intro h
  exact (castAdd_pos a b h).ne'

lemma ratioForm_den_ne (k c d e : ℕ) :
    ((k : ℝ) + c + d + e) ^ (k + c + d + e) *
      (k : ℝ) ^ k * (c : ℝ) ^ c * (d : ℝ) ^ d * (e : ℝ) ^ e ≠ 0 := by
  have h1 : ((k : ℝ) + c + d + e) ^ (k + c + d + e) ≠ 0 := by
    apply pow_ne_of
    intro h
    have : (0:ℝ) < (k : ℝ) + c + d + e := by
      have : 0 < k + c + d + e := Nat.pos_of_ne_zero h
      exact_mod_cast this
    exact this.ne'
  exact mul_ne_zero (mul_ne_zero (mul_ne_zero (mul_ne_zero h1 (selfPow_ne k))
    (selfPow_ne c)) (selfPow_ne d)) (selfPow_ne e)

lemma chooseAdd_pos (a b : ℕ) : (0:ℝ) < ((a + b).choose a : ℝ) := by
  exact_mod_cast Nat.choose_pos (Nat.le_add_right a b)

lemma ratioPiece_ne (a b : ℕ) :
    ((a : ℝ) / ((a : ℝ) + b)) ^ a * (1 - (a : ℝ) / ((a : ℝ) + b)) ^ b ≠ 0 := by
  apply mul_ne_zero
  · apply pow_ne_of
    intro ha
    have hapos : (0:ℝ) < (a : ℝ) := by
      exact_mod_cast Nat.pos_of_ne_zero ha
    have hsum : (0:ℝ) < (a : ℝ) + b := by
      have hb : (0:ℝ) ≤ (b : ℝ) := Nat.cast_nonneg b
      linarith
    exact (div_pos hapos hsum).ne'
  · apply pow_ne_of
    intro hb
    have hbpos : (0:ℝ) < (b : ℝ) := by
      exact_mod_cast Nat.pos_of_ne_zero hb
    have hsum : (0:ℝ) < (a : ℝ) + b := by
      have ha : (0:ℝ) ≤ (a : ℝ) := Nat.cast_nonneg a
      linarith
    have hlt : (a : ℝ) / ((a : ℝ) + b) < 1 := by
      rw [div_lt_one hsum]
      linarith
    linarith [hlt]

lemma altProd_ne (k c d e : ℕ) :
    ((k + d).choose k : ℝ) * ((c + e).choose c : ℝ) *
      ((k : ℝ) / ((k : ℝ) + d)) ^ k * (1 - (k : ℝ) / ((k : ℝ) + d)) ^ d *
      ((c : ℝ) / ((c : ℝ) + e)) ^ c * (1 - (c : ℝ) / ((c : ℝ) + e)) ^ e ≠ 0 := by
  have h := ratioPiece_ne k d
  have h2 := ratioPiece_ne c e
  have hc1 := (chooseAdd_pos k d).ne'
  have hc2 := (chooseAdd_pos c e).ne'
  rcases mul_ne_zero_iff.mp h with ⟨ha, hb⟩
  rcases mul_ne_zero_iff.mp h2 with ⟨hc, hd⟩
  exact mul_ne_zero (mul_ne_zero (mul_ne_zero (mul_ne_zero (mul_ne_zero
    hc1 hc2) ha) hb) hc) hd

lemma ratio_closed (k c d e : ℕ) :
    nullLikVal (k + c) (k + d) k (k + c + d + e) /
      altLikVal (k + c) (k + d) k (k + c + d + e) = ratioForm k c d e := by
  rw [nullLikVal_eq, altLikVal_eq]
  unfold ratioForm
  rw [div_eq_div_iff (altProd_ne k c d e) (ratioForm_den_ne k c d e)]
  by_cases hkd : k + d = 0
  · have hk : k = 0 := by omega
    have hd : d = 0 := by omega
    subst hk hd
    by_cases hce : c + e = 0
    · have hc : c = 0 := by omega
      have he : e = 0 := by omega
      subst hc he
      norm_num
    · norm_num
      ring
  · by_cases hce : c + e = 0
    · have hc : c = 0 := by omega
      have he : e = 0 := by omega
      subst hc he
      norm_num
      ring
    · have hB : ((k : ℝ) + d) ≠ 0 := (castAdd_pos k d hkd).ne'
      have hCE : ((c : ℝ) + e) ≠ 0 := (castAdd_pos c e hce).ne'
      have hM : ((k : ℝ) + c + d + e) ≠ 0 := by
        have h1 := castAdd_pos k d hkd
        have h2 : (0:ℝ) ≤ (c : ℝ) := Nat.cast_nonneg c
        have h3 : (0:ℝ) ≤ (e : ℝ) := Nat.cast_nonneg e
        intro h
        nlinarith
      field_simp
      ring

lemma ratioForm_symm (k c d e : ℕ) : ratioForm k c d e = ratioForm k d c e := by
  unfold ratioForm
  rw [show k + d + c + e = k + c + d + e from by omega]
  ring

lemma ratio_symm (a b k N : ℕ) (hka : k ≤ a) (hkb : k ≤ b)
    (hab : a + b ≤ N + k) :
    nullLikVal a b k N / altLikVal a b k N = nullLikVal b a k N / altLikVal b a k N := by
  obtain ⟨c, rfl⟩ : ∃ c, a = k + c := ⟨a - k, by omega⟩
  obtain ⟨d, rfl⟩ : ∃ d, b = k + d := ⟨b - k, by omega⟩
  obtain ⟨e, rfl⟩ : ∃ e, N = k + c + d + e := ⟨N - (k + c + d), by omega⟩
  rw [ratio_closed k c d e]
  have h := ratio_closed k d c e
  rw [show k + d + c + e = k + c + d + e from by omega] at h
  rw [h, ratioForm_symm]

lemma pValVal_symm (a b k N : ℕ) (hka : k ≤ a) (hkb : k ≤ b)
    (hab : a + b ≤ N + k) : pValVal a b k N = pValVal b a k N := by
  unfold pValVal
  rw [ratio_symm a b k N hka hkb hab]


lemma divPy_nan_right (x : PyFloat) : divPy x PyFloat.nan = PyFloat.nan := by
  cases x <;> rfl

lemma mulPy_nan_right (x : PyFloat) : mulPy x PyFloat.nan = PyFloat.nan := by
  cases x <;> rfl

lemma mulPy_nan_left (x : PyFloat) : mulPy PyFloat.nan x = PyFloat.nan := by
  cases x <;> rfl

lemma binomPmfPy_nan (k n : ℤ) : binomPmfPy k n PyFloat.nan = PyFloat.nan :=
  rfl

lemma divPy_zero_zero : divPy (PyFloat.fin 0) (PyFloat.fin 0) = PyFloat.nan := by
  simp [divPy]

lemma binomPmfPy_fin (k n : ℕ) (p : ℝ) (hk : k ≤ n) (h0 : 0 ≤ p) (h1 : p ≤ 1) :
    binomPmfPy (k : ℤ) (n : ℤ) (PyFloat.fin p) =
      PyFloat.fin (binomPmfVal k n p) := by
  have h2 : ¬((n : ℤ) < 0 ∨ p < 0 ∨ 1 < p) := by
    push_neg
    exact ⟨Int.natCast_nonneg n, h0, h1⟩
  have h3 : ¬((k : ℤ) < 0 ∨ (n : ℤ) < (k : ℤ)) := by
    push_neg
    exact ⟨Int.natCast_nonneg k, by exact_mod_cast hk⟩
  simp only [binomPmfPy, binomPmfVal]
  rw [if_neg h2, if_neg h3]
  simp [Int.toNat_natCast]

lemma binomPmfVal_pos (k n : ℕ) (p : ℝ) (hk : k ≤ n) (h0 : 0 ≤ p) (h1 : p ≤ 1)
    (hp0 : p = 0 → k = 0) (hp1 : p = 1 → k = n) : 0 < binomPmfVal k n p := by
  unfold binomPmfVal
  have hc : (0:ℝ) < (n.choose k : ℝ) := by
    exact_mod_cast Nat.choose_pos hk
  have hpk : (0:ℝ) < p ^ k := by
    rcases Nat.eq_zero_or_pos k with hk0 | hk0
    · simp [hk0]
    · have hpne : p ≠ 0 := by
        intro h
        have := hp0 h
        omega
      exact pow_pos (lt_of_le_of_ne h0 (Ne.symm hpne)) k
  have hqk : (0:ℝ) < (1 - p) ^ (n - k) := by
    rcases Nat.eq_zero_or_pos (n - k) with hnk | hnk
    · simp [hnk]
    · have hpne : p ≠ 1 := by
        intro h
        have := hp1 h
        omega
      have hplt : p < 1 := lt_of_le_of_ne h1 hpne
      exact pow_pos (by linarith) (n - k)
  exact mul_pos (mul_pos hc hpk) hqk

lemma binomPmfVal_selfRatio_pos (c m : ℕ) (hcm : c ≤ m) (hm : 0 < m) :
    0 < binomPmfVal c m ((c : ℝ) / (m : ℝ)) := by
  have hmne : (m:ℝ) ≠ 0 := by
    exact_mod_cast hm.ne'
  have h0 : (0:ℝ) ≤ (c : ℝ) / (m : ℝ) := by positivity
  have h1 : (c : ℝ) / (m : ℝ) ≤ 1 := by
    rw [div_le_one (by exact_mod_cast hm)]
    exact_mod_cast hcm
  apply binomPmfVal_pos c m _ hcm h0 h1
  · intro h
    rcases div_eq_zero_iff.mp h with h | h
    · exact_mod_cast h
    · exact absurd h hmne
  · intro h
    have := (div_eq_one_iff_eq hmne).mp h
    exact_mod_cast this

lemma nullLikVal_pos (a b k N : ℕ) (hka : k ≤ a) (hkb : k ≤ b)
    (hab : a + b ≤ N + k) (hN : 0 < N) : 0 < nullLikVal a b k N := by
  have haN : a ≤ N := by omega
  have hNne : (N:ℝ) ≠ 0 := by
    exact_mod_cast hN.ne'
  have hp0 : (0:ℝ) ≤ (a:ℝ) / (N:ℝ) := by positivity
  have hp1 : (a:ℝ) / (N:ℝ) ≤ 1 := by
    rw [div_le_one (by exact_mod_cast hN)]
    exact_mod_cast haN
  have hz : (a:ℝ) / (N:ℝ) = 0 → a = 0 := by
    intro h
    rcases div_eq_zero_iff.mp h with h | h
    · exact_mod_cast h
    · exact absurd h hNne
  have ho : (a:ℝ) / (N:ℝ) = 1 → a = N := by
    intro h
    have := (div_eq_one_iff_eq hNne).mp h
    exact_mod_cast this
  unfold nullLikVal
  apply mul_pos
  · apply binomPmfVal_pos k b _ hkb hp0 hp1
    · intro h
      have := hz h
      omega
    · intro h
      have := ho h
      omega
  · apply binomPmfVal_pos (a - k) (N - b) _ (by omega) hp0 hp1
    · intro h
      have := hz h
      omega
    · intro h
      have := ho h
      omega

lemma altLikVal_pos (a b k N : ℕ) (hka : k ≤ a) (hkb : k ≤ b)
    (hab : a + b ≤ N + k) (hb : 0 < b) (hbN : b < N) :
    0 < altLikVal a b k N := by
  unfold altLikVal
  apply mul_pos
  · exact binomPmfVal_selfRatio_pos k b hkb hb
  · have hc1 : (a:ℝ) - (k:ℝ) = ((a - k : ℕ) : ℝ) := by
      rw [Nat.cast_sub hka]
    have hc2 : (N:ℝ) - (b:ℝ) = ((N - b : ℕ) : ℝ) := by
      rw [Nat.cast_sub (by omega)]
    rw [hc1, hc2]
    exact binomPmfVal_selfRatio_pos (a - k) (N - b) (by omega) (by omega)

lemma nullLikPy_fin (a b k N : ℕ) (hka : k ≤ a) (hkb : k ≤ b)
    (hab : a + b ≤ N + k) (hN : 0 < N) :
    nullLikPy a b k N = PyFloat.fin (nullLikVal a b k N) := by
  have haN : a ≤ N := by omega
  have hNne : (N:ℝ) ≠ 0 := by
    exact_mod_cast hN.ne'
  have hp : divPy (PyFloat.fin (a:ℝ)) (PyFloat.fin (N:ℝ)) =
      PyFloat.fin ((a:ℝ) / (N:ℝ)) := by
    simp [divPy, hNne]
  have h0 : (0:ℝ) ≤ (a:ℝ) / (N:ℝ) := by positivity
  have h1 : (a:ℝ) / (N:ℝ) ≤ 1 := by
    rw [div_le_one (by exact_mod_cast hN)]
    exact_mod_cast haN
  unfold nullLikPy
  rw [hp]
  rw [show ((a:ℤ) - (k:ℤ)) = ((a - k : ℕ) : ℤ) from by omega]
  rw [show ((N:ℤ) - (b:ℤ)) = ((N - b : ℕ) : ℤ) from by omega]
  rw [binomPmfPy_fin k b _ hkb h0 h1]
  rw [binomPmfPy_fin (a - k) (N - b) _ (by omega) h0 h1]
  rfl

lemma altLikPy_fin (a b k N : ℕ) (hka : k ≤ a) (hkb : k ≤ b)
    (hab : a + b ≤ N + k) (hb : 0 < b) (hbN : b < N) :
    altLikPy a b k N = PyFloat.fin (altLikVal a b k N) := by
  have hbne : (b:ℝ) ≠ 0 := by
    exact_mod_cast hb.ne'
  have hbltN : (b:ℝ) < (N:ℝ) := by exact_mod_cast hbN
  have hNbne : (N:ℝ) - (b:ℝ) ≠ 0 := by linarith
  have hp1 : divPy (PyFloat.fin (k:ℝ)) (PyFloat.fin (b:ℝ)) =
      PyFloat.fin ((k:ℝ) / (b:ℝ)) := by
    simp [divPy, hbne]
  have hp0 : divPy (PyFloat.fin ((a:ℝ) - (k:ℝ))) (PyFloat.fin ((N:ℝ) - (b:ℝ)))
      = PyFloat.fin (((a:ℝ) - (k:ℝ)) / ((N:ℝ) - (b:ℝ))) := by
    simp [divPy, hNbne]
  have hone0 : (0:ℝ) ≤ (k:ℝ) / (b:ℝ) := by positivity
  have hone1 : (k:ℝ) / (b:ℝ) ≤ 1 := by
    rw [div_le_one (by exact_mod_cast hb)]
    exact_mod_cast hkb
  have habR : (a:ℝ) + (b:ℝ) ≤ (N:ℝ) + (k:ℝ) := by exact_mod_cast hab
  have hkaR : (k:ℝ) ≤ (a:ℝ) := by exact_mod_cast hka
  have hzero0 : (0:ℝ) ≤ ((a:ℝ) - (k:ℝ)) / ((N:ℝ) - (b:ℝ)) := by
    apply div_nonneg <;> linarith
  have hzero1 : ((a:ℝ) - (k:ℝ)) / ((N:ℝ) - (b:ℝ)) ≤ 1 := by
    rw [div_le_one (by linarith)]
    linarith
  unfold altLikPy
  rw [hp1, hp0]
  rw [show ((a:ℤ) - (k:ℤ)) = ((a - k : ℕ) : ℤ) from by omega]
  rw [show ((N:ℤ) - (b:ℤ)) = ((N - b : ℕ) : ℤ) from by omega]
  rw [binomPmfPy_fin k b _ hkb hone0 hone1]
  rw [binomPmfPy_fin (a - k) (N - b) _ (by omega) hzero0 hzero1]
  rfl

lemma pValPy_fin (a b k N : ℕ) (hka : k ≤ a) (hkb : k ≤ b)
    (hab : a + b ≤ N + k) (hb : 0 < b) (hbN : b < N) :
    pValPy a b k N = some (PyFloat.fin (pValVal a b k N)) := by
  have hN : 0 < N := lt_trans hb hbN
  have hnp := nullLikVal_pos a b k N hka hkb hab hN
  have hap := altLikVal_pos a b k N hka hkb hab hb hbN
  unfold pValPy
  rw [nullLikPy_fin a b k N hka hkb hab hN,
      altLikPy_fin a b k N hka hkb hab hb hbN]
  have hdiv : divPy (PyFloat.fin (nullLikVal a b k N))
      (PyFloat.fin (altLikVal a b k N))
      = PyFloat.fin (nullLikVal a b k N / altLikVal a b k N) := by
    simp [divPy, hap.ne']
  rw [hdiv]
  have hratio : 0 < nullLikVal a b k N / altLikVal a b k N := div_pos hnp hap
  rw [show log10Py (PyFloat.fin (nullLikVal a b k N / altLikVal a b k N))
      = some (PyFloat.fin
        (Real.logb 10 (nullLikVal a b k N / altLikVal a b k N))) from by
    simp [log10Py, not_le.mpr hratio]]
  rfl

lemma pValPy_ne_none (a b k N : ℕ) (hka : k ≤ a) (hkb : k ≤ b)
    (hab : a + b ≤ N + k) : pValPy a b k N ≠ none := by
  by_cases hN : N = 0
  · have ha : a = 0 := by omega
    have hb : b = 0 := by omega
    have hk : k = 0 := by omega
    subst hN
    subst ha
    subst hb
    subst hk
    simp [pValPy, nullLikPy, altLikPy, divPy, binomPmfPy, mulPy, log10Py]
  · by_cases hb : b = 0
    · have hk : k = 0 := by omega
      subst hb
      subst hk
      have halt : altLikPy a 0 0 N = PyFloat.nan := by
        unfold altLikPy
        rw [show ((0:ℕ):ℝ) = (0:ℝ) from by norm_num, divPy_zero_zero,
            binomPmfPy_nan, mulPy_nan_left]
      unfold pValPy
      rw [halt, divPy_nan_right]
      simp [log10Py]
    · by_cases hbN : b = N
      · have hak : a = k := by omega
        have halt : altLikPy a b k N = PyFloat.nan := by
          unfold altLikPy
          rw [show (a:ℝ) - (k:ℝ) = (0:ℝ) from by rw [hak]; ring,
              show (N:ℝ) - (b:ℝ) = (0:ℝ) from by rw [hbN]; ring,
              divPy_zero_zero, binomPmfPy_nan, mulPy_nan_right]
        unfold pValPy
        rw [halt, divPy_nan_right]
        simp [log10Py]
      · rw [pValPy_fin a b k N hka hkb hab (Nat.pos_of_ne_zero hb) (by omega)]
        simp

lemma zeroDecision_iff (a b k N : ℕ) (α : ℝ) (v : PyFloat)
    (h : pValPy a b k N = some v) :
    zeroDecision a b k N α ↔ gtPy v α := by
  unfold zeroDecision
  rw [h]
  constructor
  · rintro ⟨w, hw, hgw⟩
    rw [Option.some_inj.mp hw]
    exact hgw
  · intro hg
    exact ⟨v, rfl, hg⟩

open Classical in
lemma sct_foldl_char {n : ℕ} (N : ℕ) (α : ℝ) (l : List (Fin n × Fin n)) :
    ∀ M : Fin n → Fin n → ℕ, l.Nodup →
      (∀ q, q ∈ l → q.1 ≠ q.2 →
        pValPy (M q.1 q.1) (M q.2 q.2) (M q.1 q.2) N ≠ none) →
      ∃ R, l.foldl (sctFold N α) (some M) = some R ∧
        ∀ x y, R x y =
          if (x, y) ∈ l ∧ x ≠ y ∧ zeroDecision (M x x) (M y y) (M x y) N α
          then 0 else M x y := by
  induction l with
  | nil =>
      intro M _ _
      exact ⟨M, rfl, fun x y => by simp⟩
  | cons p t ih =>
      intro M hl herr
      have hpt : p ∉ t := (List.nodup_cons.mp hl).1
      have ht : t.Nodup := (List.nodup_cons.mp hl).2
      rw [List.foldl_cons]
      have hfold : sctFold N α (some M) p = sctStep N α M p := by
        simp [sctFold]
      rw [hfold]
      by_cases hp : p.1 = p.2
      · have hstep : sctStep N α M p = some M := by
          unfold sctStep
          rw [if_pos hp]
        rw [hstep]
        obtain ⟨R, hR, hpt2⟩ :=
          ih M ht (fun q hq hne => herr q (List.mem_cons_of_mem p hq) hne)
        refine ⟨R, hR, fun x y => ?_⟩
        rw [hpt2 x y]
        refine if_congr ?_ rfl rfl
        constructor
        · rintro ⟨hm, hxy, hD⟩
          exact ⟨List.mem_cons_of_mem p hm, hxy, hD⟩
        · rintro ⟨hm, hxy, hD⟩
          rcases List.mem_cons.mp hm with hmp | hmt
          · obtain ⟨hx, hy⟩ := Prod.ext_iff.mp hmp
            exact absurd (hx.trans (hp.trans hy.symm)) hxy
          · exact ⟨hmt, hxy, hD⟩
      · obtain ⟨v, hv⟩ :=
          Option.ne_none_iff_exists'.mp (herr p (List.mem_cons_self p t) hp)
        set M1 : Fin n → Fin n → ℕ :=
          if gtPy v α then (fun z w => if z = p.1 ∧ w = p.2 then 0 else M z w)
          else M with hM1
        have hstep : sctStep N α M p = some M1 := by
          unfold sctStep
          rw [if_neg hp, hv]
          rfl
        rw [hstep]
        have hdiag : ∀ z, M1 z z = M z z := by
          intro z
          rw [hM1]
          by_cases hg : gtPy v α
          · rw [if_pos hg]
            show (if z = p.1 ∧ z = p.2 then 0 else M z z) = M z z
            rw [if_neg]
            rintro ⟨h1, h2⟩
            exact hp (h1.symm.trans h2)
          · rw [if_neg hg]
        have hne2 : ∀ z w, (z, w) ≠ p → M1 z w = M z w := by
          intro z w hzw
          rw [hM1]
          by_cases hg : gtPy v α
          · rw [if_pos hg]
            show (if z = p.1 ∧ w = p.2 then 0 else M z w) = M z w
            rw [if_neg]
            rintro ⟨h1, h2⟩
            exact hzw (Prod.ext h1 h2)
          · rw [if_neg hg]
        have hself : M1 p.1 p.2 = if gtPy v α then 0 else M p.1 p.2 := by
          rw [hM1]
          by_cases hg : gtPy v α
          · rw [if_pos hg, if_pos hg]
            show (if p.1 = p.1 ∧ p.2 = p.2 then 0 else M p.1 p.2) = 0
            rw [if_pos ⟨rfl, rfl⟩]
          · rw [if_neg hg, if_neg hg]
        have herr1 : ∀ q, q ∈ t → q.1 ≠ q.2 →
            pValPy (M1 q.1 q.1) (M1 q.2 q.2) (M1 q.1 q.2) N ≠ none := by
          intro q hq hne
          have hqp : q ≠ p := fun h => hpt (h ▸ hq)
          rw [hdiag q.1, hdiag q.2, hne2 q.1 q.2 (by
            intro h
            exact hqp ((Prod.mk.eta).symm.trans h))]
          exact herr q (List.mem_cons_of_mem p hq) hne
        obtain ⟨R, hR, hpt2⟩ := ih M1 ht herr1
        refine ⟨R, hR, fun x y => ?_⟩
        rw [hpt2 x y, hdiag x, hdiag y]
        by_cases hxyp : (x, y) = p
        · obtain ⟨hx, hy⟩ := Prod.ext_iff.mp hxyp
          subst hx
          subst hy
          rw [if_neg (by
            rintro ⟨hm, -, -⟩
            exact hpt (by rwa [Prod.mk.eta] at hm))]
          rw [hself]
          have hmem : ((p.1, p.2) : Fin n × Fin n) ∈ p :: t := by
            rw [Prod.mk.eta]
            exact List.mem_cons_self p t
          have hdec := zeroDecision_iff (M p.1 p.1) (M p.2 p.2) (M p.1 p.2) N α v hv
          by_cases hg : gtPy v α
          · rw [if_pos hg, if_pos ⟨hmem, hp, hdec.mpr hg⟩]
          · rw [if_neg hg, if_neg (by
              rintro ⟨-, -, hD⟩
              exact hg (hdec.mp hD))]
        · rw [hne2 x y hxyp]
          refine if_congr ?_ rfl rfl
          simp only [List.mem_cons]
          constructor
          · rintro ⟨hm, h2, h3⟩
            exact ⟨Or.inr hm, h2, h3⟩
          · rintro ⟨hm, h2, h3⟩
            rcases hm with hm | hm
            · exact absurd hm hxyp
            · exact ⟨hm, h2, h3⟩

open Classical in
lemma sct_eq_some {n : ℕ} (C : Fin n → Fin n → ℕ) (N : ℕ) (α : ℝ)
    (herr : ∀ x y : Fin n, x ≠ y → pValPy (C x x) (C y y) (C x y) N ≠ none) :
    ∃ R, significant_connection_threshold C N α = some R ∧
      ∀ x y, R x y =
        if x ≠ y ∧ zeroDecision (C x x) (C y y) (C x y) N α then 0
        else C x y := by
  obtain ⟨R, hR, hpt⟩ :=
    sct_foldl_char N α ((List.finRange n) ×ˢ (List.finRange n)) C
      (List.Nodup.product (List.nodup_finRange n) (List.nodup_finRange n))
      (fun q _ hne => herr q.1 q.2 hne)
  refine ⟨R, hR, fun x y => ?_⟩
  rw [hpt x y]
  refine if_congr ?_ rfl rfl
  have hmem : (x, y) ∈ (List.finRange n) ×ˢ (List.finRange n) := by
    simp [List.pair_mem_product]
  tauto

lemma sct_herr_of_invariants {n : ℕ} (C : Fin n → Fin n → ℕ) (N : ℕ)
    (hsym : ∀ x y, C x y = C y x) (hbound : ∀ x y, C x y ≤ C y y)
    (huniv : ∀ x y, C x x + C y y ≤ N + C x y) :
    ∀ x y : Fin n, x ≠ y → pValPy (C x x) (C y y) (C x y) N ≠ none := by
  intro x y _
  apply pValPy_ne_none
  · rw [hsym x y]
    exact hbound y x
  · exact hbound x y
  · exact huniv x y

lemma pValPy_nan_case : pValPy 1 2 1 2 = some PyFloat.nan := by
  unfold pValPy nullLikPy altLikPy
  norm_num [divPy, binomPmfPy, mulPy, log10Py, negTwoPy, Int.toNat_ofNat]

lemma pValPy_zero_case : pValPy 2 1 1 2 = some (PyFloat.fin 0) := by
  unfold pValPy nullLikPy altLikPy
  norm_num [divPy, binomPmfPy, mulPy, log10Py, negTwoPy, Int.toNat_ofNat,
    Real.logb_one]

lemma nullLikPy_small : nullLikPy 1 2 1 3 = PyFloat.fin (8/27) := by
  unfold nullLikPy
  norm_num [divPy, binomPmfPy, mulPy, Int.toNat_ofNat,
    show (2:ℤ).toNat = 2 from rfl]

lemma altLikPy_small : altLikPy 1 2 1 3 = PyFloat.fin (1/2) := by
  unfold altLikPy
  norm_num [divPy, binomPmfPy, mulPy, Int.toNat_ofNat,
    show (2:ℤ).toNat = 2 from rfl]

/-- Counterexample to claim C1 as stated: on the symmetric co-activation
matrix `[[1,1],[1,2]]` over a universe of 2 contrasts (sets `{u}` and
`{u,v}`), at threshold -1, the filter returns the ASYMMETRIC matrix
`[[1,1],[0,2]]`: at entry `(0,1)` the source computes
`p_zero = (1-1)/(2-2) = 0.0/0.0 = nan`, the nan propagates through the
pmf, the ratio and `log10`, and `nan > -1` is False, so the entry is
kept; at the mirrored entry `(1,0)` every quantity is 1, `p_val = -0.0`
exceeds -1, and the entry is zeroed. -/
theorem c1_counterexample :
    (significant_connection_threshold Cnan 2 (-1)).map (fun M => M 0 1)
      = some 1 ∧
    (significant_connection_threshold Cnan 2 (-1)).map (fun M => M 1 0)
      = some 0 := by
  have h00 : Cnan 0 0 = 1 := rfl
  have h11 : Cnan 1 1 = 2 := rfl
  have h01 : Cnan 0 1 = 1 := rfl
  have h10 : Cnan 1 0 = 1 := rfl
  have herr : ∀ x y : Fin 2, x ≠ y →
      pValPy (Cnan x x) (Cnan y y) (Cnan x y) 2 ≠ none := by
    intro x y hxy
    fin_cases x <;> fin_cases y
    · exact absurd rfl hxy
    · show pValPy 1 2 1 2 ≠ none
      rw [pValPy_nan_case]
      simp
    · show pValPy 2 1 1 2 ≠ none
      rw [pValPy_zero_case]
      simp
    · exact absurd rfl hxy
  obtain ⟨R, hR, hpt⟩ := sct_eq_some Cnan 2 (-1) herr
  rw [hR]
  constructor
  · simp only [Option.map_some']
    rw [hpt 0 1, h01]
    rw [if_neg (by
      rintro ⟨-, hD⟩
      have := (zeroDecision_iff (Cnan 0 0) (Cnan 1 1) (Cnan 0 1) 2 (-1)
        PyFloat.nan (by rw [h00, h11, h01]; exact pValPy_nan_case)).mp hD
      exact this)]
  · simp only [Option.map_some']
    rw [hpt 1 0]
    rw [if_pos ⟨by decide,
      (zeroDecision_iff (Cnan 1 1) (Cnan 0 0) (Cnan 1 0) 2 (-1)
        (PyFloat.fin 0) (by rw [h11, h00, h10]; exact pValPy_zero_case)).mpr
        (by norm_num [gtPy])⟩]

/-- Claim C1, amended: for every symmetric co-activation matrix (data-model
invariants `C[x][y] <= C[y][y]` and `C[x][x] + C[y][y] <= N + C[x][y]`),
`significant_connection_threshold` returns a matrix (no entry raises) and
never modifies a diagonal entry; and the returned matrix is symmetric AT
EVERY PAIR WHOSE TWO REGIONS ARE NON-TRIVIAL (independent activation
counts strictly between 0 and `N`): there both statistics are finite and
equal, so entries `(i,j)` and `(j,i)` are zeroed together.  (Full
symmetry fails: at a degenerate pair the statistic is nan and the entry
is unconditionally kept, see the counterexample.) -/
theorem significant_connection_threshold_diag_symm {n : ℕ}
    (C : Fin n → Fin n → ℕ) (N : ℕ) (α : ℝ)
    (hsym : ∀ x y, C x y = C y x)
    (hbound : ∀ x y, C x y ≤ C y y)
    (huniv : ∀ x y, C x x + C y y ≤ N + C x y)
    (i j : Fin n) :
    (significant_connection_threshold C N α).map (fun M => M i i)
      = some (C i i) ∧
    (0 < C i i → C i i < N → 0 < C j j → C j j < N →
      (significant_connection_threshold C N α).map (fun M => M i j) =
        (significant_connection_threshold C N α).map (fun M => M j i)) := by
  obtain ⟨R, hR, hpt⟩ :=
    sct_eq_some C N α (sct_herr_of_invariants C N hsym hbound huniv)
  rw [hR]
  constructor
  · simp only [Option.map_some']
    rw [hpt i i]
    simp
  · intro h1 h2 h3 h4
    simp only [Option.map_some']
    by_cases hij : i = j
    · rw [hij]
    · congr 1
      rw [hpt i j, hpt j i]
      have hka : C i j ≤ C i i := by
        rw [hsym i j]
        exact hbound j i
      have hfin1 : pValPy (C i i) (C j j) (C i j) N =
          some (PyFloat.fin (pValVal (C i i) (C j j) (C i j) N)) :=
        pValPy_fin _ _ _ _ hka (hbound i j) (huniv i j) h3 h4
      have hfin2 : pValPy (C j j) (C i i) (C j i) N =
          some (PyFloat.fin (pValVal (C j j) (C i i) (C j i) N)) :=
        pValPy_fin _ _ _ _ (by rw [hsym j i]; exact hbound i j)
          (hbound j i) (huniv j i) h1 h2
      have hvv : pValVal (C i i) (C j j) (C i j) N
          = pValVal (C j j) (C i i) (C j i) N := by
        rw [hsym j i]
        exact pValVal_symm (C i i) (C j j) (C i j) N hka (hbound i j)
          (huniv i j)
      have hd1 := zeroDecision_iff (C i i) (C j j) (C i j) N α _ hfin1
      have hd2 := zeroDecision_iff (C j j) (C i i) (C j i) N α _ hfin2
      by_cases hgt : pValVal (C i i) (C j j) (C i j) N > α
      · rw [if_pos ⟨hij, hd1.mpr hgt⟩,
            if_pos ⟨Ne.symm hij, hd2.mpr (by rw [← hvv]; exact hgt)⟩]
      · rw [if_neg (fun hcon => hgt (hd1.mp hcon.2)),
            if_neg (fun hcon => hgt (by
              have := hd2.mp hcon.2
              rw [hvv]
              exact this))]
        exact hsym i j

/-- Witness for the amended claim C1 on the co-activation matrix
`[[3,1],[1,5]]` with 10 total contrasts and threshold 1 (both regions
non-trivial). -/
theorem significant_connection_threshold_diag_symm_witness :
    (significant_connection_threshold C1w 10 1).map (fun M => M 0 0)
      = some (C1w 0 0) ∧
    (significant_connection_threshold C1w 10 1).map (fun M => M 0 1) =
      (significant_connection_threshold C1w 10 1).map (fun M => M 1 0) :=
  ⟨(significant_connection_threshold_diag_symm C1w 10 1
      (by decide) (by decide) (by decide) 0 1).1,
   (significant_connection_threshold_diag_symm C1w 10 1
      (by decide) (by decide) (by decide) 0 1).2
      (by decide) (by decide) (by decide) (by decide)⟩

open Classical in
/-- Claim C8: at an off-diagonal pair `(i, j)` of a symmetric
co-activation matrix where the program's `null` and `alternate`
likelihoods are positive finite floats (`PyFloat.fin` values `u, v > 0` —
this excludes every nan path), the filter returns a matrix whose entry
`(i, j)` is zeroed precisely when
`stat = -2 * log10(null/alternative) > alpha`, and is the unchanged input
entry otherwise. -/
theorem significant_connection_threshold_entry {n : ℕ}
    (C : Fin n → Fin n → ℕ) (N : ℕ) (α : ℝ)
    (hsym : ∀ x y, C x y = C y x)
    (hbound : ∀ x y, C x y ≤ C y y)
    (huniv : ∀ x y, C x x + C y y ≤ N + C x y)
    (i j : Fin n) (hij : i ≠ j) (u v : ℝ)
    (hnull : nullLikPy (C i i) (C j j) (C i j) N = PyFloat.fin u)
    (hu : 0 < u)
    (halt : altLikPy (C i i) (C j j) (C i j) N = PyFloat.fin v)
    (hv : 0 < v) :
    (significant_connection_threshold C N α).map (fun M => M i j) =
      some (if -2 * Real.logb 10 (u / v) > α then 0 else C i j) := by
  obtain ⟨R, hR, hpt⟩ :=
    sct_eq_some C N α (sct_herr_of_invariants C N hsym hbound huniv)
  rw [hR]
  simp only [Option.map_some']
  congr 1
  rw [hpt i j]
  have hpv : pValPy (C i i) (C j j) (C i j) N =
      some (PyFloat.fin (-2 * Real.logb 10 (u / v))) := by
    unfold pValPy
    rw [hnull, halt]
    have hdiv : divPy (PyFloat.fin u) (PyFloat.fin v) = PyFloat.fin (u / v) := by
      simp [divPy, hv.ne']
    rw [hdiv]
    rw [show log10Py (PyFloat.fin (u / v))
        = some (PyFloat.fin (Real.logb 10 (u / v))) from by
      simp [log10Py, not_le.mpr (div_pos hu hv)]]
    rfl
  have hd := zeroDecision_iff (C i i) (C j j) (C i j) N α _ hpv
  by_cases hgt : -2 * Real.logb 10 (u / v) > α
  · rw [if_pos ⟨hij, hd.mpr hgt⟩, if_pos hgt]
  · rw [if_neg (fun hcon => hgt (hd.mp hcon.2)), if_neg hgt]

open Classical in
/-- Witness for claim C8 on the matrix `[[1,1],[1,2]]` with 3 total
contrasts and threshold 1: at entry `(0, 1)` the program's likelihoods
are the positive finite floats `null = 8/27` and `alternate = 1/2`. -/
theorem significant_connection_threshold_entry_witness :
    (significant_connection_threshold Cnan 3 1).map (fun M => M 0 1) =
      some (if -2 * Real.logb 10 ((8/27 : ℝ) / (1/2 : ℝ)) > 1 then 0
        else Cnan 0 1) :=
  significant_connection_threshold_entry Cnan 3 1
    (by decide) (by decide) (by decide) 0 1 (by decide) (8/27) (1/2)
    (by exact nullLikPy_small) (by norm_num)
    (by exact altLikPy_small) (by norm_num)
